import Mathlib

/-!
Shallow embedding of the "Document Tabs" VS Code extension core
(`src/tabsProvider.ts` — the current revision with caching/coloring — and the
`types.ts` classifier module).

Modelling conventions:
* JavaScript strings are modelled as `List Char` (`Str`); literals are written
  as `("...").data`.  `String.prototype.split` with a one-character separator
  is `splitOnChar`; `charCodeAt` / the default `Array.sort` comparator operate
  on UTF-16 code units (`utf16`).
* `vscode.Uri` is modelled by its path string (for the file URIs the provider
  handles, `uri.path`, `uri.fsPath` and the `uri.toString()` identity key all
  carry the same path information).
* `Array.prototype.sort(cmp)` is a stable sort (ECMAScript 2019).  It is
  modelled by a stable insertion sort `insertionSortB le` with
  `le a b := cmp a b ≤ 0`; any two stable sorts for the same total comparator
  agree, so this is observationally the source's sort.
* `localeCompare(b, undefined, \x7b sensitivity: 'base' \x7d)` is modelled as the
  case-insensitive lexicographic comparison of the UTF-16 units of the
  lowercased strings (ASCII-faithful model of the default collator).
* JS `Map` is modelled as an association list with insertion-order keys;
  `Map.set` on a fresh key appends, on an existing key updates in place.
* The directory walk's `fs.readdirSync` is a function
  `List Str → Option (List Str)`; `none` models a directory that is
  unreadable or has vanished (`existsSync` false / `readdirSync` throwing,
  which the source catches and ignores).
* The provider's 100 ms `getConfig` memoisation is time-based and out of
  scope; the configuration is passed explicitly.  The `parentLookupMap`
  (used only by `getParent`) is not needed by any claim and is omitted.
-/

namespace DocumentTabs

/-- JavaScript strings, as lists of characters. -/
abbrev Str := List Char

/-- JS `String.prototype.split` with a single-character separator:
`"".split(s) = [""]`, `"/".split("/") = ["", ""]`, etc. -/
def splitOnChar (sep : Char) : Str → List Str
  | [] => [[]]
  | c :: rest =>
    match splitOnChar sep rest with
    | [] => [[]]
    | h :: t => if c = sep then [] :: h :: t else (c :: h) :: t

/-- Joins strings with a single-character separator (inverse of `splitOnChar`,
used to model `String.prototype.replace` of a final suffix). -/
def joinChar (sep : Char) : List Str → Str
  | [] => []
  | [s] => s
  | s :: rest => s ++ sep :: joinChar sep rest

/-- UTF-16 code units of one character (JS `charCodeAt` / string order). -/
def utf16Units (c : Char) : List Nat :=
  if c.toNat < 65536 then [c.toNat]
  else [55296 + (c.toNat - 65536) / 1024, 56320 + (c.toNat - 65536) % 1024]

/-- UTF-16 code units of a string. -/
def utf16 (s : Str) : List Nat :=
  s.foldr (fun c acc => utf16Units c ++ acc) []

/-- Lexicographic `≤` on code-unit sequences (the JS default sort order on
strings, and — after lowercasing — the model of base-sensitivity
`localeCompare`). -/
def lexLeU : List Nat → List Nat → Bool
  | [], _ => true
  | _ :: _, [] => false
  | a :: as, b :: bs => if a < b then true else if b < a then false else lexLeU as bs

/-- The JS default `Array.sort` comparator on strings: UTF-16 unit order. -/
def strLe (a b : Str) : Bool := lexLeU (utf16 a) (utf16 b)

/-- Model of `a.localeCompare(b, undefined, \x7b sensitivity: 'base' \x7d) <= 0`:
case-insensitive comparison of display labels. -/
def labelLe (a b : Str) : Bool :=
  lexLeU (utf16 (a.map Char.toLower)) (utf16 (b.map Char.toLower))

/-- Stable insertion of `a` in front of the first element `b` with `le a b`. -/
def orderedInsertB (le : α → α → Bool) (a : α) : List α → List α
  | [] => [a]
  | b :: l => if le a b then a :: b :: l else b :: orderedInsertB le a l

/-- Stable sort by a boolean `≤`; models JS `Array.prototype.sort(cmp)`
(stable since ES2019) with `le a b = (cmp a b <= 0)`. -/
def insertionSortB (le : α → α → Bool) : List α → List α
  | [] => []
  | a :: l => orderedInsertB le a (insertionSortB le l)

/-- Keeps the first occurrence of every element (the key order of a JS `Map`
built by repeated insertion). -/
def firstDedup [DecidableEq α] : List α → List α
  | [] => []
  | k :: ks => k :: (firstDedup ks).filter (fun k' => !decide (k' = k))

/-! Enumerations and records of `types.ts`. -/

/-- Sorting options for tabs (`SortOrder`). -/
inductive SortOrder
  | alphabetical
  | recentlyOpenedFirst
  | recentlyOpenedLast
deriving DecidableEq

/-- Grouping options for tabs (`GroupBy`). -/
inductive GroupBy
  | none
  | folder
  | extension
  | project
deriving DecidableEq

/-- Colorization options (`ColorBy`). -/
inductive ColorBy
  | none
  | project
  | extension
deriving DecidableEq

/-- Supported manual tab colors (`TabColorName`). -/
inductive TabColorName
  | none
  | lavender
  | gold
  | cyan
  | burgundy
  | green
  | brown
  | royalBlue
  | pumpkin
  | gray
  | volt
  | teal
  | magenta
  | mint
  | darkBrown
  | blue
  | pink
deriving DecidableEq

/-- Configuration of the extension (`DocumentTabsConfig`). -/
structure DocumentTabsConfig where
  sortOrder : SortOrder
  groupBy : GroupBy
  colorBy : ColorBy
  showPinnedSeparately : Bool
  showTabCount : Bool
  showDirtyIndicator : Bool
  showFileIcons : Bool
  showPath : Bool
  collapseGroupsByDefault : Bool
deriving DecidableEq

/-- A tab item of the tree view (`TabItem`); `uri` is the identity key
(`uri.toString()`), `label` the derived file name, `openedAt` the ledger
sequence.  The mutable `groupName` field (used only by the legacy
`getParent`) is omitted. -/
structure TabItem where
  uri : Str
  label : Str
  isPinned : Bool
  isDirty : Bool
  openedAt : Nat
  projectFolder : Option Str := Option.none
deriving DecidableEq

/-- Collapsible state of a tree item (`vscode.TreeItemCollapsibleState`). -/
inductive TreeItemCollapsibleState
  | notCollapsible
  | collapsed
  | expanded
deriving DecidableEq

/-- A group item of the tree view (`GroupItem`). -/
structure GroupItem where
  name : Str
  tabs : List TabItem
  collapsibleState : TreeItemCollapsibleState
deriving DecidableEq

/-- Union of the two tree node kinds (`TreeViewItem`). -/
inductive TreeViewItem
  | tab (t : TabItem)
  | group (g : GroupItem)
deriving DecidableEq

/-! Path classifiers of `types.ts`. -/

/-- Sentinel returned by `getFileExtension` for names without a dot. -/
def noExtension : Str := ("No Extension").data

/-- Sentinel returned by `getParentFolder` for paths below two segments. -/
def rootSentinel : Str := ("Root").data

/-- Sentinel returned by `getProjectFolder` outside any workspace root. -/
def externalName : Str := ("External").data

/-- Source `getFileName`: last `/`-segment of the path, or the raw path when
that segment is empty. -/
def getFileName (uri : Str) : Str :=
  let parts := splitOnChar '/' uri
  let last := parts.getLastD []
  if last = [] then uri else last

/-- Source `getFileExtension`: `"." + last dot-segment` when the file name
splits into at least two parts, else the `"No Extension"` sentinel. -/
def getFileExtension (uri : Str) : Str :=
  let fileName := getFileName uri
  let parts := splitOnChar '.' fileName
  if parts.length > 1 then '.' :: parts.getLastD [] else noExtension

/-- Source `getParentFolder`: second-to-last `/`-segment, with the `"Root"`
sentinel for short paths or an empty segment. -/
def getParentFolder (uri : Str) : Str :=
  let parts := splitOnChar '/' uri
  if parts.length ≥ 2 then
    let p := parts.getD (parts.length - 2) []
    if p = [] then rootSentinel else p
  else rootSentinel

/-- A workspace folder of the host editor: its `fsPath` split at `/`, and its
display name. -/
structure WorkspaceFolder where
  root : List Str
  name : Str
deriving DecidableEq

/-- Environment of the classifiers: the host's workspace folders and the
synchronous directory listing (`none` = unreadable or vanished directory). -/
structure Ctx where
  workspaceFolders : List WorkspaceFolder
  readDir : List Str → Option (List Str)

/-- Model of the host API `vscode.workspace.getWorkspaceFolder`: the first
workspace folder whose root path strictly contains the document's path. -/
def getWorkspaceFolder (ctx : Ctx) (uri : Str) : Option WorkspaceFolder :=
  let segs := splitOnChar '/' uri
  ctx.workspaceFolders.find?
    (fun ws => decide (ws.root = segs.take ws.root.length) && decide (ws.root.length < segs.length))

/-- Test for the marker regex `/\.[^.]*proj$/i` of `getProjectFolder`: the
name has a dot and its last dot-segment ends with `proj` (case-insensitive). -/
def isProjMarker (file : Str) : Bool :=
  let parts := splitOnChar '.' file
  decide (parts.length > 1) && (("proj").data).isSuffixOf ((parts.getLastD []).map Char.toLower)

/-- Source `file.replace(/\.[^.]*proj$/i, '')`: the file name up to (and
excluding) its last dot. -/
def stripProjSuffix (file : Str) : Str :=
  joinChar '.' ((splitOnChar '.' file).dropLast)

/-- One level of the marker walk: the stripped name of the first `*proj`
marker file in the directory's listing; an unreadable or vanished directory
(`readDir = none`, the source's caught I/O error) contributes no marker. -/
def markerNameIn (ctx : Ctx) (dir : List Str) : Option Str :=
  (((ctx.readDir dir).getD []).find? isProjMarker).map stripProjSuffix

/-- Fuel-indexed form of the `while` loop of `getProjectFolder`; the fuel is
structural only, and `walkUp` supplies enough of it for the loop to run to
its own exit conditions. -/
def walkUpAux (ctx : Ctx) (root : List Str) : Nat → List Str → Option Str
  | 0, _ => Option.none
  | fuel + 1, dir =>
    if dir.length < root.length then Option.none
    else
      match markerNameIn ctx dir with
      | some n => some n
      | Option.none =>
        if dir.length ≤ 1 then Option.none
        else walkUpAux ctx root fuel dir.dropLast

/-- Source `while` loop of `getProjectFolder`: walk from `dir` upward while
the current directory is at least as long as the workspace root, returning
the first marker name found; `path.dirname` is `dropLast`, and the
`parentDir === currentDir` break corresponds to the one-segment floor. -/
def walkUp (ctx : Ctx) (dir root : List Str) : Option Str :=
  walkUpAux ctx root (dir.length + 1) dir

/-- Denylist of generic container folder names used by the fallback. -/
def rootFolders : List Str :=
  [("src").data, ("source").data, ("lib").data, ("libs").data,
   ("packages").data, ("projects").data, ("apps").data, ("modules").data]

/-- Source `getProjectFolder` (the memoisation cache is omitted; this is the
value the classifier computes and caches): `"External"` outside any
workspace; else the first marker found walking up from the containing
directory to the workspace root; else the first non-denylisted non-empty
segment of the workspace-relative directory path; else the workspace name. -/
def getProjectFolder (ctx : Ctx) (uri : Str) : Str :=
  match getWorkspaceFolder ctx uri with
  | Option.none => externalName
  | some ws =>
    let segs := splitOnChar '/' uri
    let startingDir := segs.dropLast
    match walkUp ctx startingDir ws.root with
    | some projectName => projectName
    | Option.none =>
      let dirParts := (segs.drop ws.root.length).dropLast
      match dirParts.find?
          (fun f => !decide (f.map Char.toLower ∈ rootFolders) && decide (f.length > 0)) with
      | some f => f
      | Option.none => ws.name

/-- Source `getRelativePath`: path relative to the owning workspace root, or
the raw path outside any workspace (paths as `/`-segment lists throughout). -/
def getRelativePath (ctx : Ctx) (uri : Str) : List Str :=
  let segs := splitOnChar '/' uri
  match getWorkspaceFolder ctx uri with
  | some ws => segs.drop ws.root.length
  | Option.none => segs

/-! Color assignment engine of `tabsProvider.ts`. -/

/-- Modulus of JavaScript 32-bit integer arithmetic. -/
def M32 : Nat := 4294967296

/-- One step of the source hash loop
`hash = ((hash << 5) + hash) ^ value.charCodeAt(i)`, tracked on the unsigned
32-bit representation: `hash << 5` wraps to `h * 32 % 2^32`, the JS `+` is
exact, and `^` reduces both operands to 32 bits before the bitwise xor. -/
def hashStep (h c : Nat) : Nat := Nat.xor ((h * 32 % M32 + h) % M32) c

/-- Source `hashString` (djb2 over the UTF-16 code units, seed 5381), as the
unsigned 32-bit representation of the resulting JS int32. -/
def hashString (s : Str) : Nat := (utf16 s).foldl hashStep 5381

/-- Reads an unsigned 32-bit representation back as the signed JS int32. -/
def toSigned32 (h : Nat) : Int :=
  if h < 2147483648 then (h : Int) else (h : Int) - (M32 : Int)

/-- Source `Math.abs(hash)` applied to the signed 32-bit hash. -/
def absHash (s : Str) : Nat := (toSigned32 (hashString s)).natAbs

/-- The fixed ordered 16-entry automatic palette (`autoColorPalette`). -/
def autoColorPalette : List TabColorName :=
  [TabColorName.lavender, TabColorName.gold, TabColorName.cyan, TabColorName.burgundy,
   TabColorName.green, TabColorName.brown, TabColorName.royalBlue, TabColorName.pumpkin,
   TabColorName.gray, TabColorName.volt, TabColorName.teal, TabColorName.magenta,
   TabColorName.mint, TabColorName.darkBrown, TabColorName.blue, TabColorName.pink]

/-- Source color selection
`autoColorPalette[hashString(key) % autoColorPalette.length] ?? 'none'`. -/
def autoColor (key : Str) : TabColorName :=
  autoColorPalette.getD (absHash key % autoColorPalette.length) TabColorName.none

/-- The persisted manual override map (`workspaceState` record), as an
association list with unique keys. -/
abbrev ManualColors := List (Str × TabColorName)

/-- Lookup of a stored manual color (`colors[key]`). -/
def lookupColor (m : ManualColors) (k : Str) : Option TabColorName :=
  (m.find? (fun p => decide (p.1 = k))).map Prod.snd

/-- JS `colors[key] = color`: update in place or append. -/
def setColorEntry (k : Str) (c : TabColorName) : ManualColors → ManualColors
  | [] => [(k, c)]
  | p :: rest => if p.1 = k then (k, c) :: rest else p :: setColorEntry k c rest

/-- JS `delete colors[key]`. -/
def deleteColorEntry (m : ManualColors) (k : Str) : ManualColors :=
  m.filter (fun p => !decide (p.1 = k))

/-- Source `setManualTabColor`: `color === 'none'` deletes the entry, any
other color stores it. -/
def setManualTabColor (m : ManualColors) (k : Str) (c : TabColorName) : ManualColors :=
  if c = TabColorName.none then deleteColorEntry m k else setColorEntry k c m

/-- Source `getEffectiveTabColor`: a stored manual color (a non-empty string,
hence truthy) wins; else `'none'` when `colorBy` is `'none'`; else the auto
color of the mode's classifier key. -/
def getEffectiveTabColor (ctx : Ctx) (manual : ManualColors) (t : TabItem)
    (cfg : DocumentTabsConfig) : TabColorName :=
  match lookupColor manual t.uri with
  | some c => c
  | Option.none =>
    if cfg.colorBy = ColorBy.none then TabColorName.none
    else
      match cfg.colorBy with
      | ColorBy.project => autoColor (getProjectFolder ctx t.uri)
      | ColorBy.extension => autoColor (getFileExtension t.uri)
      | ColorBy.none => TabColorName.none

/-! Sorting, grouping and the root build of `tabsProvider.ts`. -/

/-- The comparator of `sortTabs` as a boolean `≤` (`cmp a b <= 0`). -/
def tabLe (cfg : DocumentTabsConfig) (a b : TabItem) : Bool :=
  match cfg.sortOrder with
  | SortOrder.alphabetical => labelLe a.label b.label
  | SortOrder.recentlyOpenedFirst => decide (b.openedAt ≤ a.openedAt)
  | SortOrder.recentlyOpenedLast => decide (a.openedAt ≤ b.openedAt)

/-- Source `sortTabs`: stable sort by the configured comparator. -/
def sortTabs (cfg : DocumentTabsConfig) (tabs : List TabItem) : List TabItem :=
  insertionSortB (tabLe cfg) tabs

/-- The group key computed for one tab inside `groupTabs`'s `switch`. -/
def groupKeyOf (ctx : Ctx) (cfg : DocumentTabsConfig) (t : TabItem) : Str :=
  match cfg.groupBy with
  | GroupBy.folder => getParentFolder t.uri
  | GroupBy.extension => getFileExtension t.uri
  | GroupBy.project => t.projectFolder.getD (getProjectFolder ctx t.uri)
  | GroupBy.none => []

/-- JS `Map` insertion as performed by `groupTabs`: push onto an existing
bucket (key keeps its position) or append a fresh singleton bucket. -/
def insertIntoGroup (k : Str) (t : TabItem) :
    List (Str × List TabItem) → List (Str × List TabItem)
  | [] => [(k, [t])]
  | (k', ts) :: rest =>
    if k' = k then (k', ts ++ [t]) :: rest else (k', ts) :: insertIntoGroup k t rest

/-- Source `groupTabs`: bucket the tabs by group key in a `Map`, then re-sort
each bucket by the active sort order. -/
def groupTabs (ctx : Ctx) (cfg : DocumentTabsConfig) (tabs : List TabItem) :
    List (Str × List TabItem) :=
  let m := tabs.foldl (fun m t => insertIntoGroup (groupKeyOf ctx cfg t) t m) []
  m.map (fun p => (p.1, sortTabs cfg p.2))

/-- JS `groups.get(groupName)!` on the bucket map. -/
def lookupGroup (m : List (Str × List TabItem)) (k : Str) : List TabItem :=
  ((m.find? (fun p => decide (p.1 = k))).map Prod.snd).getD []

/-- JS `Array.from(groups.keys()).sort()`: default lexicographic sort. -/
def sortStrings (l : List Str) : List Str := insertionSortB strLe l

/-- Reserved name of the synthetic pinned group. -/
def pinnedGroupName : Str := ("📌 Pinned").data

/-- Substituted display name of the empty bucket. -/
def otherName : Str := ("Other").data

/-- Render-time fallback label of a group with an empty stored name. -/
def ungroupedName : Str := ("Ungrouped").data

/-- Collapsible state given to non-pinned groups
(`collapseGroupsByDefault ? Collapsed : Expanded`). -/
def groupState (cfg : DocumentTabsConfig) : TreeItemCollapsibleState :=
  if cfg.collapseGroupsByDefault then TreeItemCollapsibleState.collapsed
  else TreeItemCollapsibleState.expanded

/-- The group-node portion of the root build: bucket, sort the bucket names,
and emit one `GroupItem` per bucket with `name: groupName || 'Other'`. -/
def mkGroups (ctx : Ctx) (cfg : DocumentTabsConfig) (tabs : List TabItem) :
    List TreeViewItem :=
  (sortStrings ((groupTabs ctx cfg tabs).map Prod.fst)).map (fun k =>
    TreeViewItem.group
      ⟨if k = [] then otherName else k, lookupGroup (groupTabs ctx cfg tabs) k,
       groupState cfg⟩)

/-- The pure root-level computation of `getChildren` (the body that runs on a
cache miss, given the sorted/snapshot inputs). -/
def buildRoot (ctx : Ctx) (cfg : DocumentTabsConfig) (tabs : List TabItem) :
    List TreeViewItem :=
  let sorted := sortTabs cfg tabs
  if cfg.showPinnedSeparately then
    let pinnedTabs := sorted.filter (fun t => t.isPinned)
    let unpinnedTabs := sorted.filter (fun t => !t.isPinned)
    let pre : List TreeViewItem :=
      if pinnedTabs.isEmpty then []
      else [TreeViewItem.group ⟨pinnedGroupName, pinnedTabs, TreeItemCollapsibleState.expanded⟩]
    if cfg.groupBy = GroupBy.none then pre ++ unpinnedTabs.map TreeViewItem.tab
    else pre ++ mkGroups ctx cfg unpinnedTabs
  else
    if cfg.groupBy = GroupBy.none then sorted.map TreeViewItem.tab
    else mkGroups ctx cfg sorted

/-- Render-time label of a group's tree item (`element.name || 'Ungrouped'`
in `getTreeItem`). -/
def groupTreeItemLabel (g : GroupItem) : Str :=
  if g.name = [] then ungroupedName else g.name

/-- Source `getChildren(element)` for a non-root element: a group's
already-sorted members, a leaf's empty list. -/
def getChildrenOf (element : TreeViewItem) : List TreeViewItem :=
  match element with
  | TreeViewItem.group g => g.tabs.map TreeViewItem.tab
  | TreeViewItem.tab _ => []

/-- Source `getOrderedTabs`: the flattened display order of a root sequence. -/
def getOrderedTabsFrom (children : List TreeViewItem) : List TabItem :=
  children.foldr
    (fun c acc =>
      match c with
      | TreeViewItem.tab t => t :: acc
      | TreeViewItem.group g => g.tabs ++ acc) []

/-! Provider state: the ordering ledger and the memoisation caches. -/

/-- A live editor tab at the provider boundary; `uri` is `getTabUri`'s result
(`none` for tabs without a derivable URI, which are skipped). -/
structure RawTab where
  uri : Option Str
  isPinned : Bool
  isDirty : Bool
deriving DecidableEq

/-- The memoisation signature of the root build (the code's
`sortOrder|groupBy|pinned|collapse` template string, which encodes this
tuple injectively). -/
abbrev Signature := SortOrder × GroupBy × Bool × Bool

/-- Signature of a configuration. -/
def signatureOf (cfg : DocumentTabsConfig) : Signature :=
  (cfg.sortOrder, cfg.groupBy, cfg.showPinnedSeparately, cfg.collapseGroupsByDefault)

/-- Mutable state of `DocumentTabsProvider`: the ordering ledger
(`tabOpenOrder`, `orderCounter`) and the caches. -/
structure ProviderState where
  tabOpenOrder : List (Str × Nat)
  orderCounter : Nat
  cachedAllTabs : Option (List TabItem)
  cachedRootChildren : Option (List TreeViewItem)
  cachedRootChildrenSignature : Option Signature
deriving DecidableEq

/-- Lookup in the ledger (`tabOpenOrder.get`). -/
def lookupSeq (m : List (Str × Nat)) (k : Str) : Option Nat :=
  (m.find? (fun p => decide (p.1 = k))).map Prod.snd

/-- Source `invalidateCache`. -/
def invalidateCache (s : ProviderState) : ProviderState :=
  { s with cachedAllTabs := Option.none, cachedRootChildren := Option.none,
           cachedRootChildrenSignature := Option.none }

/-- One iteration of the `trackNewTabs` loop: a tab with a URI not yet
tracked receives `orderCounter++`. -/
def trackOne (s : ProviderState) (r : RawTab) : ProviderState :=
  match r.uri with
  | some u =>
    if (lookupSeq s.tabOpenOrder u).isSome then s
    else { s with tabOpenOrder := s.tabOpenOrder ++ [(u, s.orderCounter)],
                  orderCounter := s.orderCounter + 1 }
  | Option.none => s

/-- Source `trackNewTabs`: track the batch, then invalidate the caches iff
the batch is non-empty. -/
def trackNewTabs (ts : List RawTab) (s : ProviderState) : ProviderState :=
  let s' := ts.foldl trackOne s
  if ts.isEmpty then s' else invalidateCache s'

/-- One iteration of the `removeClosedTabs` loop. -/
def removeOne (s : ProviderState) (r : RawTab) : ProviderState :=
  match r.uri with
  | some u => { s with tabOpenOrder := s.tabOpenOrder.filter (fun p => !decide (p.1 = u)) }
  | Option.none => s

/-- Source `removeClosedTabs`. -/
def removeClosedTabs (ts : List RawTab) (s : ProviderState) : ProviderState :=
  let s' := ts.foldl removeOne s
  if ts.isEmpty then s' else invalidateCache s'

/-- The ledger read performed by `getAllTabs`
(`tabOpenOrder.get(uri.toString()) ?? 0`): the spec's `sequenceOf`. -/
def sequenceOf (s : ProviderState) (u : Str) : Nat :=
  (lookupSeq s.tabOpenOrder u).getD 0

/-- The snapshot loop of `getAllTabs`: one `TabItem` per live tab with a
derivable URI, with the project folder precomputed only when the active
grouping or coloring needs it. -/
def computeAllTabs (ctx : Ctx) (cfg : DocumentTabsConfig) (s : ProviderState)
    (live : List RawTab) : List TabItem :=
  let needsProjectFolder := cfg.groupBy = GroupBy.project || cfg.colorBy = ColorBy.project
  live.foldr
    (fun r acc =>
      match r.uri with
      | some u =>
        { uri := u, label := getFileName u, isPinned := r.isPinned, isDirty := r.isDirty,
          openedAt := sequenceOf s u,
          projectFolder :=
            if needsProjectFolder then some (getProjectFolder ctx u) else Option.none } :: acc
      | Option.none => acc) []

/-- Source `getAllTabs` with its cache. -/
def getAllTabs (ctx : Ctx) (cfg : DocumentTabsConfig) (s : ProviderState)
    (live : List RawTab) : List TabItem × ProviderState :=
  match s.cachedAllTabs with
  | some t => (t, s)
  | Option.none =>
    let t := computeAllTabs ctx cfg s live
    (t, { s with cachedAllTabs := some t })

/-- The cache-miss path of root-level `getChildren`: snapshot, build, store. -/
def rebuildRoot (ctx : Ctx) (cfg : DocumentTabsConfig) (s : ProviderState)
    (live : List RawTab) : List TreeViewItem × ProviderState :=
  let p := getAllTabs ctx cfg s live
  let r := buildRoot ctx cfg p.1
  (r, { p.2 with cachedRootChildren := some r,
                 cachedRootChildrenSignature := some (signatureOf cfg) })

/-- Root-level `getChildren` with its signature-keyed memoisation. -/
def getChildrenRoot (ctx : Ctx) (cfg : DocumentTabsConfig) (s : ProviderState)
    (live : List RawTab) : List TreeViewItem × ProviderState :=
  match s.cachedRootChildren with
  | some r =>
    if s.cachedRootChildrenSignature = some (signatureOf cfg) then (r, s)
    else rebuildRoot ctx cfg s live
  | Option.none => rebuildRoot ctx cfg s live

/-! Claim-side definitions: restatements of the specification's wording, to
be compared with the definitions translated from the source. -/

/-- Specification wording of the grouped portion of the root build: bucket
the documents by group key, order the Group Nodes by lexicographically
sorted bucket name, and let each node's members be its bucket sorted by the
active sort order (the empty bucket name displaying as `"Other"`). -/
def groupNodesSpec (ctx : Ctx) (cfg : DocumentTabsConfig) (docs : List TabItem) :
    List TreeViewItem :=
  (sortStrings (firstDedup (docs.map (groupKeyOf ctx cfg)))).map (fun k =>
    TreeViewItem.group
      ⟨if k = [] then otherName else k,
       sortTabs cfg (docs.filter (fun t => decide (groupKeyOf ctx cfg t = k))),
       groupState cfg⟩)

/-- The chain of directories visited by the specification's walk: from `dir`
upward, directory by directory, to the directory with `rootLen` segments
(the workspace root) inclusive. -/
def ancestorChain (dir : List Str) (rootLen : Nat) : List (List Str) :=
  (List.range (dir.length + 1 - rootLen)).map (fun i => dir.take (dir.length - i))

/-- Specification wording of the project-root classifier: `"External"` with
no workspace; else the stripped name of the first marker found on the
upward walk (an unreadable directory contributing no marker); else the
first workspace-relative directory segment outside the denylist; else the
workspace display name. -/
def projectFolderSpec (ctx : Ctx) (uri : Str) : Str :=
  match getWorkspaceFolder ctx uri with
  | Option.none => externalName
  | some ws =>
    let segs := splitOnChar '/' uri
    let dir := segs.dropLast
    match (ancestorChain dir ws.root.length).findSome? (markerNameIn ctx) with
    | some n => n
    | Option.none =>
      match ((segs.drop ws.root.length).dropLast).find?
          (fun f => !decide (f.map Char.toLower ∈ rootFolders)) with
      | some f => f
      | Option.none => ws.name

/-- Specification wording of the hash: `hash = hash*33 XOR charCode`
accumulated left-to-right from 5381 over the key's UTF-16 units, on 32-bit
values. -/
def specDjb2 (s : Str) : Nat :=
  (utf16 s).foldl (fun h c => Nat.xor (h * 33 % M32) c) 5381

/-! Concrete inputs for the worked examples, counterexamples and witnesses. -/

/-- Empty classifier environment (no workspace, no readable directories). -/
def exCtx : Ctx := ⟨[], fun _ => Option.none⟩

/-- Example document `a.ts` in folder `src`, opened first. -/
def exTabA : TabItem :=
  { uri := ("/workspace/src/a.ts").data, label := ("a.ts").data,
    isPinned := false, isDirty := false, openedAt := 1 }

/-- Example document `b.ts` in folder `src`, opened second. -/
def exTabB : TabItem :=
  { uri := ("/workspace/src/b.ts").data, label := ("b.ts").data,
    isPinned := false, isDirty := false, openedAt := 2 }

/-- Example document `b.ts`, pinned (for the pinned-group example). -/
def exTabBPinned : TabItem := { exTabB with isPinned := true }

/-- Configuration sort=alphabetical, group=folder, pinned handling off. -/
def exCfgAlphaFolder : DocumentTabsConfig :=
  { sortOrder := SortOrder.alphabetical, groupBy := GroupBy.folder, colorBy := ColorBy.none,
    showPinnedSeparately := false, showTabCount := true, showDirtyIndicator := true,
    showFileIcons := true, showPath := true, collapseGroupsByDefault := false }

/-- Configuration sort=recentlyOpenedFirst, group=folder. -/
def exCfgRecentFolder : DocumentTabsConfig :=
  { exCfgAlphaFolder with sortOrder := SortOrder.recentlyOpenedFirst }

/-- Configuration sort=alphabetical, group=none, show-pinned-separately on. -/
def exCfgNonePinned : DocumentTabsConfig :=
  { exCfgAlphaFolder with groupBy := GroupBy.none, showPinnedSeparately := true }

/-- Configuration sort=alphabetical, group=project, pinned handling off. -/
def exCfgProject : DocumentTabsConfig :=
  { exCfgAlphaFolder with groupBy := GroupBy.project }

/-- Workspace folder `/ws` named `ws`. -/
def exWs : WorkspaceFolder := ⟨[[], ("ws").data], ("ws").data⟩

/-- Environment for the empty-bucket counterexample: directory `/ws/a`
contains a marker file named exactly `.csproj`, whose stripped project name
is the empty string. -/
def cexCtx : Ctx :=
  ⟨[exWs], fun d => if d = [[], ("ws").data, ("a").data] then some [(".csproj").data]
                    else some []⟩

/-- Document `/ws/a/f.ts` inside the empty-named project. -/
def cexTab : TabItem :=
  { uri := ("/ws/a/f.ts").data, label := ("f.ts").data,
    isPinned := false, isDirty := false, openedAt := 0 }

/-- Environment for the classifier witness: the containing directory
`/ws/a/b` is unreadable, its parent `/ws/a` holds marker `x.csproj`. -/
def witCtx : Ctx :=
  ⟨[exWs], fun d =>
    if d = [[], ("ws").data, ("a").data, ("b").data] then Option.none
    else if d = [[], ("ws").data, ("a").data] then some [("x.csproj").data]
    else some []⟩

/-- Document path used by the classifier witness. -/
def witUri : Str := ("/ws/a/b/f.ts").data

/-- A fresh provider state (empty ledger, cold caches). -/
def emptyState : ProviderState :=
  { tabOpenOrder := [], orderCounter := 0, cachedAllTabs := Option.none,
    cachedRootChildren := Option.none, cachedRootChildrenSignature := Option.none }

/-- Live raw tab for URI `/workspace/src/n.ts`. -/
def witRawTab : RawTab :=
  { uri := some (("/workspace/src/n.ts").data), isPinned := false, isDirty := false }

/-- Provider state with a warm root cache under the alphabetical/folder
signature (for the cache-invalidation witness). -/
def witCachedState : ProviderState :=
  { tabOpenOrder := [], orderCounter := 0, cachedAllTabs := some [],
    cachedRootChildren := some [TreeViewItem.tab exTabA],
    cachedRootChildrenSignature := some (signatureOf exCfgAlphaFolder) }

/-- Ledger-witness state: `a` opened into a fresh provider. -/
def c4s1 : ProviderState := trackNewTabs [⟨some (("a").data), false, false⟩] emptyState

/-- Ledger-witness state: then `b` opened. -/
def c4s2 : ProviderState := trackNewTabs [⟨some (("b").data), false, false⟩] c4s1

/-- Ledger-witness state: then `a` closed. -/
def c4s3 : ProviderState := removeClosedTabs [⟨some (("a").data), false, false⟩] c4s2

/-- Ledger-witness state: then `a` re-opened. -/
def c4s4 : ProviderState := trackNewTabs [⟨some (("a").data), false, false⟩] c4s3

/-! Helper lemmas. -/

theorem orderedInsertB_perm (le : α → α → Bool) (a : α) (l : List α) :
    (orderedInsertB le a l).Perm (a :: l) := by
  induction l with
  | nil => exact List.Perm.refl _
  | cons b l ih =>
    simp only [orderedInsertB]
    by_cases h : le a b
    · simp [h]
    · simp only [h, if_neg, Bool.false_eq_true, not_false_eq_true]
      exact (ih.cons b).trans (List.Perm.swap a b l)

theorem insertionSortB_perm (le : α → α → Bool) (l : List α) :
    (insertionSortB le l).Perm l := by
  induction l with
  | nil => exact List.Perm.refl _
  | cons a l ih =>
    exact (orderedInsertB_perm le a (insertionSortB le l)).trans (ih.cons a)

theorem mem_insertionSortB (le : α → α → Bool) (l : List α) (a : α) :
    a ∈ insertionSortB le l ↔ a ∈ l :=
  (insertionSortB_perm le l).mem_iff

theorem mem_sortTabs (cfg : DocumentTabsConfig) (l : List TabItem) (t : TabItem) :
    t ∈ sortTabs cfg l ↔ t ∈ l :=
  mem_insertionSortB _ l t

theorem mem_sortStrings (l : List Str) (s : Str) : s ∈ sortStrings l ↔ s ∈ l :=
  mem_insertionSortB _ l s

theorem mem_firstDedup [DecidableEq α] (l : List α) (a : α) :
    a ∈ firstDedup l ↔ a ∈ l := by
  induction l with
  | nil => simp [firstDedup]
  | cons k ks ih =>
    simp only [firstDedup, List.mem_cons, List.mem_filter, ih, Bool.not_eq_eq_eq_not,
      Bool.not_true, decide_eq_false_iff_not]
    by_cases h : a = k <;> simp [h]

theorem firstDedup_filter [DecidableEq α] (p : α → Bool) (l : List α) :
    (firstDedup l).filter p = firstDedup (l.filter p) := by
  induction l with
  | nil => simp [firstDedup]
  | cons k ks ih =>
    by_cases hk : p k
    · have lhs : (firstDedup (k :: ks)).filter p =
          k :: ((firstDedup ks).filter (fun k' => !decide (k' = k))).filter p := by
        simp [firstDedup, hk]
      have rhs : firstDedup ((k :: ks).filter p) =
          k :: (firstDedup (ks.filter p)).filter (fun k' => !decide (k' = k)) := by
        simp [List.filter_cons, hk, firstDedup]
      rw [lhs, rhs, ← ih, List.filter_filter, List.filter_filter]
      exact congrArg _ (List.filter_congr (fun x _ => Bool.and_comm _ _))
    · have lhs : (firstDedup (k :: ks)).filter p =
          ((firstDedup ks).filter (fun k' => !decide (k' = k))).filter p := by
        simp [firstDedup, hk]
      have rhs : firstDedup ((k :: ks).filter p) = (firstDedup ks).filter p := by
        rw [List.filter_cons, if_neg (by simpa using hk)]
        exact ih.symm
      rw [lhs, rhs, List.filter_filter]
      refine List.filter_congr (fun x _ => ?_)
      by_cases ha : x = k
      · subst ha
        simp [hk]
      · simp [ha]

theorem nodup_firstDedup [DecidableEq α] (l : List α) : (firstDedup l).Nodup := by
  induction l with
  | nil => simp [firstDedup]
  | cons k ks ih =>
    simp only [firstDedup, List.nodup_cons]
    refine ⟨fun hmem => ?_, ih.filter _⟩
    have := (List.mem_filter.mp hmem).2
    simp at this

theorem find?_congrOn {p q : α → Bool} (l : List α) (h : ∀ x ∈ l, p x = q x) :
    l.find? p = l.find? q := by
  induction l with
  | nil => rfl
  | cons a l ih =>
    have ha := h a (List.mem_cons_self a l)
    rw [List.find?_cons, List.find?_cons, ha]
    cases q a
    · exact ih fun x hx => h x (List.mem_cons_of_mem a hx)
    · rfl

theorem find?_assoc_map {β : Type} (f : Str → β) (l : List Str) (k : Str) (h : k ∈ l) :
    (l.map (fun k' => (k', f k'))).find? (fun p => decide (p.1 = k)) = some (k, f k) := by
  induction l with
  | nil => cases h
  | cons a l ih =>
    by_cases ha : a = k
    · subst ha
      simp [List.find?_cons]
    · have hk : k ∈ l := by
        rcases List.mem_cons.mp h with h' | h'
        · exact absurd h'.symm ha
        · exact h'
      simpa [List.find?_cons, ha] using ih hk

theorem find?_filter_not_self {β : Type} (l : List (Str × β)) (k : Str) :
    (l.filter (fun p => !decide (p.1 = k))).find? (fun p => decide (p.1 = k)) =
      Option.none := by
  induction l with
  | nil => rfl
  | cons a l ih =>
    by_cases ha : a.1 = k
    · simp [List.filter_cons, ha, ih]
    · simp [List.filter_cons, ha, ih]

theorem insertIntoGroup_of_not_mem (k : Str) (t : TabItem)
    (m : List (Str × List TabItem)) (h : ∀ p ∈ m, p.1 ≠ k) :
    insertIntoGroup k t m = m ++ [(k, [t])] := by
  induction m with
  | nil => rfl
  | cons p rest ih =>
    obtain ⟨k', ts⟩ := p
    have hk' : k' ≠ k := h (k', ts) (List.mem_cons_self _ _)
    simp only [insertIntoGroup, if_neg hk', List.cons_append]
    exact congrArg _ (ih fun q hq => h q (List.mem_cons_of_mem _ hq))

theorem insertIntoGroup_of_mem (k : Str) (t : TabItem)
    (m : List (Str × List TabItem)) (hmem : k ∈ m.map Prod.fst)
    (hnd : (m.map Prod.fst).Nodup) :
    insertIntoGroup k t m =
      m.map (fun p => if p.1 = k then (p.1, p.2 ++ [t]) else p) := by
  induction m with
  | nil => cases hmem
  | cons p rest ih =>
    obtain ⟨k', ts⟩ := p
    rw [List.map_cons] at hnd
    by_cases hk : k' = k
    · subst hk
      have hnot : k' ∉ rest.map Prod.fst := (List.nodup_cons.mp hnd).1
      have hrest : rest.map (fun p => if p.1 = k' then (p.1, p.2 ++ [t]) else p) = rest := by
        conv_rhs => rw [← List.map_id rest]
        refine List.map_congr_left (fun q hq => ?_)
        rw [if_neg, id]
        intro hq1
        exact hnot (hq1 ▸ List.mem_map_of_mem Prod.fst hq)
      simp [insertIntoGroup, hrest]
    · have hmem' : k ∈ rest.map Prod.fst := by
        rcases List.mem_cons.mp hmem with h' | h'
        · exact absurd h'.symm hk
        · exact h'
      simp only [insertIntoGroup, if_neg hk, List.map_cons]
      rw [ih hmem' (List.nodup_cons.mp hnd).2]

theorem foldl_insertIntoGroup (key : TabItem → Str) (tabs : List TabItem) :
    ∀ (m : List (Str × List TabItem)), (m.map Prod.fst).Nodup →
      tabs.foldl (fun acc t => insertIntoGroup (key t) t acc) m =
        m.map (fun p => (p.1, p.2 ++ tabs.filter (fun t => decide (key t = p.1)))) ++
        (firstDedup ((tabs.map key).filter (fun k => !decide (k ∈ m.map Prod.fst)))).map
          (fun k => (k, tabs.filter (fun t => decide (key t = k)))) := by
  induction tabs with
  | nil =>
    intro m hnd
    simp [firstDedup]
  | cons t ts ih =>
    intro m hnd
    rw [List.foldl_cons]
    by_cases hk : key t ∈ m.map Prod.fst
    · rw [insertIntoGroup_of_mem (key t) t m hk hnd]
      have hkeys : (m.map (fun p => if p.1 = key t then (p.1, p.2 ++ [t]) else p)).map
          Prod.fst = m.map Prod.fst := by
        rw [List.map_map]
        refine List.map_congr_left (fun p _ => ?_)
        by_cases h : p.1 = key t <;> simp [h]
      rw [ih _ (hkeys ▸ hnd)]
      congr 1
      · rw [List.map_map]
        refine List.map_congr_left (fun p _ => ?_)
        by_cases h : p.1 = key t
        · simp [h, List.filter_cons, List.append_assoc]
        · have h' : ¬ key t = p.1 := fun e => h e.symm
          simp [h, h', List.filter_cons]
      · rw [hkeys]
        have harg : ((t :: ts).map key).filter (fun k => !decide (k ∈ m.map Prod.fst)) =
            (ts.map key).filter (fun k => !decide (k ∈ m.map Prod.fst)) := by
          simp [List.filter_cons, hk]
        rw [harg]
        refine List.map_congr_left (fun k hmemk => ?_)
        have hkne : ¬ key t = k := by
          intro e
          have := (List.mem_filter.mp ((mem_firstDedup _ _).mp hmemk)).2
          rw [← e] at this
          simp [hk] at this
        simp [List.filter_cons, hkne]
    · have hall : ∀ p ∈ m, p.1 ≠ key t := fun p hp e =>
        hk (e ▸ List.mem_map_of_mem Prod.fst hp)
      rw [insertIntoGroup_of_not_mem _ _ _ hall]
      have hnd' : ((m ++ [(key t, [t])]).map Prod.fst).Nodup := by
        rw [List.map_append, List.nodup_append]
        refine ⟨hnd, List.nodup_singleton _, fun a ha hb => ?_⟩
        simp only [List.map_cons, List.map_nil, List.mem_singleton] at hb
        exact hk (hb ▸ ha)
      rw [ih _ hnd']
      have hnew : ((t :: ts).map key).filter (fun k => !decide (k ∈ m.map Prod.fst)) =
          key t :: (ts.map key).filter (fun k => !decide (k ∈ m.map Prod.fst)) := by
        simp [List.filter_cons, hk]
      have hdedup : firstDedup ((t :: ts).map key |>.filter
          (fun k => !decide (k ∈ m.map Prod.fst))) =
          key t :: firstDedup ((ts.map key).filter
            (fun k => !decide (k ∈ (m ++ [(key t, ([t] : List TabItem))]).map Prod.fst))) := by
        rw [hnew, firstDedup, firstDedup_filter, List.filter_filter]
        refine congrArg _ (congrArg _ (List.filter_congr (fun a _ => ?_)))
        simp only [List.map_append, List.map_cons, List.map_nil, List.mem_append,
          List.mem_singleton]
        by_cases h1 : a ∈ m.map Prod.fst <;> by_cases h2 : a = key t <;> simp [h1, h2]
      rw [hdedup, List.map_cons]
      have hfirst : m.map (fun p => (p.1, p.2 ++ (t :: ts).filter
          (fun t' => decide (key t' = p.1)))) =
          m.map (fun p => (p.1, p.2 ++ ts.filter (fun t' => decide (key t' = p.1)))) := by
        refine List.map_congr_left (fun p hp => ?_)
        have h' : ¬ key t = p.1 := fun e => hall p hp e.symm
        simp [List.filter_cons, h']
      rw [hfirst]
      have hrest : (firstDedup ((ts.map key).filter
          (fun k => !decide (k ∈ (m ++ [(key t, ([t] : List TabItem))]).map Prod.fst)))).map
            (fun k => (k, (t :: ts).filter (fun t' => decide (key t' = k)))) =
          (firstDedup ((ts.map key).filter
          (fun k => !decide (k ∈ (m ++ [(key t, ([t] : List TabItem))]).map Prod.fst)))).map
            (fun k => (k, ts.filter (fun t' => decide (key t' = k)))) := by
        refine List.map_congr_left (fun k hmemk => ?_)
        have hkne : ¬ key t = k := by
          intro e
          have := (List.mem_filter.mp ((mem_firstDedup _ _).mp hmemk)).2
          rw [← e] at this
          simp at this
        simp [List.filter_cons, hkne]
      rw [hrest]
      have hhead : ((key t : Str), (t :: ts).filter (fun t' => decide (key t' = key t))) =
          (key t, ([t] : List TabItem) ++ ts.filter (fun t' => decide (key t' = key t))) := by
        simp [List.filter_cons]
      rw [hhead, List.map_append, List.append_assoc]
      rfl

theorem groupTabs_eq (ctx : Ctx) (cfg : DocumentTabsConfig) (tabs : List TabItem) :
    groupTabs ctx cfg tabs =
      (firstDedup (tabs.map (groupKeyOf ctx cfg))).map
        (fun k => (k, sortTabs cfg (tabs.filter
          (fun t => decide (groupKeyOf ctx cfg t = k))))) := by
  unfold groupTabs
  rw [foldl_insertIntoGroup (groupKeyOf ctx cfg) tabs [] (by simp)]
  simp only [List.map_nil, List.nil_append, List.map_map]
  have : ((tabs.map (groupKeyOf ctx cfg)).filter
      (fun k => !decide (k ∈ ([] : List Str)))) = tabs.map (groupKeyOf ctx cfg) := by
    simp
  rw [this]
  rfl

theorem keys_groupTabs (ctx : Ctx) (cfg : DocumentTabsConfig) (tabs : List TabItem) :
    (groupTabs ctx cfg tabs).map Prod.fst = firstDedup (tabs.map (groupKeyOf ctx cfg)) := by
  rw [groupTabs_eq, List.map_map]
  exact List.map_congr_left (fun k _ => rfl) |>.trans (List.map_id _)

theorem lookupGroup_groupTabs (ctx : Ctx) (cfg : DocumentTabsConfig)
    (tabs : List TabItem) (k : Str) (h : k ∈ tabs.map (groupKeyOf ctx cfg)) :
    lookupGroup (groupTabs ctx cfg tabs) k =
      sortTabs cfg (tabs.filter (fun t => decide (groupKeyOf ctx cfg t = k))) := by
  rw [groupTabs_eq]
  unfold lookupGroup
  rw [find?_assoc_map _ _ k ((mem_firstDedup _ _).mpr h)]
  rfl

theorem mkGroups_eq (ctx : Ctx) (cfg : DocumentTabsConfig) (tabs : List TabItem) :
    mkGroups ctx cfg tabs =
      (sortStrings (firstDedup (tabs.map (groupKeyOf ctx cfg)))).map (fun k =>
        TreeViewItem.group
          ⟨if k = [] then otherName else k,
           sortTabs cfg (tabs.filter (fun t => decide (groupKeyOf ctx cfg t = k))),
           groupState cfg⟩) := by
  unfold mkGroups
  rw [keys_groupTabs]
  refine List.map_congr_left (fun k hk => ?_)
  have hk' : k ∈ tabs.map (groupKeyOf ctx cfg) :=
    (mem_firstDedup _ _).mp ((mem_sortStrings _ _).mp hk)
  rw [lookupGroup_groupTabs ctx cfg tabs k hk']

theorem mkGroups_eq_groupNodesSpec (ctx : Ctx) (cfg : DocumentTabsConfig)
    (tabs : List TabItem) : mkGroups ctx cfg tabs = groupNodesSpec ctx cfg tabs :=
  mkGroups_eq ctx cfg tabs

theorem getOrderedTabsFrom_cons (c : TreeViewItem) (l : List TreeViewItem) :
    getOrderedTabsFrom (c :: l) =
      (match c with
       | TreeViewItem.tab t => [t]
       | TreeViewItem.group g => g.tabs) ++ getOrderedTabsFrom l := by
  cases c <;> rfl

theorem getOrderedTabsFrom_append (l₁ l₂ : List TreeViewItem) :
    getOrderedTabsFrom (l₁ ++ l₂) = getOrderedTabsFrom l₁ ++ getOrderedTabsFrom l₂ := by
  induction l₁ with
  | nil => rfl
  | cons c l ih =>
    rw [List.cons_append, getOrderedTabsFrom_cons, getOrderedTabsFrom_cons, ih,
      List.append_assoc]

theorem getOrderedTabsFrom_map_tab (l : List TabItem) :
    getOrderedTabsFrom (l.map TreeViewItem.tab) = l := by
  induction l with
  | nil => rfl
  | cons t l ih => rw [List.map_cons, getOrderedTabsFrom_cons, ih, List.singleton_append]

theorem mem_getOrderedTabsFrom_of_group (children : List TreeViewItem) (g : GroupItem)
    (hg : TreeViewItem.group g ∈ children) (x : TabItem) (hx : x ∈ g.tabs) :
    x ∈ getOrderedTabsFrom children := by
  induction children with
  | nil => cases hg
  | cons c rest ih =>
    rw [getOrderedTabsFrom_cons]
    rcases List.mem_cons.mp hg with h | h
    · subst h
      exact List.mem_append_left _ hx
    · exact List.mem_append_right _ (ih h)

theorem mem_flatten_mkGroups (ctx : Ctx) (cfg : DocumentTabsConfig)
    (tabs : List TabItem) (t : TabItem) (ht : t ∈ tabs) :
    t ∈ getOrderedTabsFrom (mkGroups ctx cfg tabs) := by
  rw [mkGroups_eq]
  set k := groupKeyOf ctx cfg t with hkdef
  have hkmem : k ∈ sortStrings (firstDedup (tabs.map (groupKeyOf ctx cfg))) := by
    rw [mem_sortStrings, mem_firstDedup]
    exact List.mem_map_of_mem _ ht
  have hnode : TreeViewItem.group
      ⟨if k = [] then otherName else k,
       sortTabs cfg (tabs.filter (fun t' => decide (groupKeyOf ctx cfg t' = k))),
       groupState cfg⟩ ∈
      (sortStrings (firstDedup (tabs.map (groupKeyOf ctx cfg)))).map (fun k' =>
        TreeViewItem.group
          ⟨if k' = [] then otherName else k',
           sortTabs cfg (tabs.filter (fun t' => decide (groupKeyOf ctx cfg t' = k'))),
           groupState cfg⟩) := List.mem_map_of_mem _ hkmem
  refine mem_getOrderedTabsFrom_of_group _ _ hnode t ?_
  rw [mem_sortTabs, List.mem_filter]
  exact ⟨ht, by simp [hkdef]⟩

theorem mem_flatten_buildRoot (ctx : Ctx) (cfg : DocumentTabsConfig)
    (tabs : List TabItem) (t : TabItem) (ht : t ∈ tabs) :
    t ∈ getOrderedTabsFrom (buildRoot ctx cfg tabs) := by
  unfold buildRoot
  have hsorted : t ∈ sortTabs cfg tabs := (mem_sortTabs cfg tabs t).mpr ht
  by_cases hps : cfg.showPinnedSeparately
  · simp only [hps, if_pos]
    by_cases hpin : t.isPinned
    · have hmemp : t ∈ (sortTabs cfg tabs).filter (fun t' => t'.isPinned) :=
        List.mem_filter.mpr ⟨hsorted, by simp [hpin]⟩
      have hne : ((sortTabs cfg tabs).filter (fun t' => t'.isPinned)).isEmpty = false := by
        simp [List.isEmpty_iff, List.ne_nil_of_mem hmemp]
      by_cases hgb : cfg.groupBy = GroupBy.none <;>
        simp only [hgb, hne, Bool.false_eq_true, if_neg, if_pos, not_false_eq_true,
          reduceIte] <;>
        rw [getOrderedTabsFrom_append] <;>
        exact List.mem_append_left _
          (mem_getOrderedTabsFrom_of_group _ _ (List.mem_singleton.mpr rfl) t hmemp)
    · have hmemu : t ∈ (sortTabs cfg tabs).filter (fun t' => !t'.isPinned) :=
        List.mem_filter.mpr ⟨hsorted, by simp [hpin]⟩
      by_cases hgb : cfg.groupBy = GroupBy.none
      · simp only [hgb, reduceIte]
        rw [getOrderedTabsFrom_append]
        refine List.mem_append_right _ ?_
        rw [getOrderedTabsFrom_map_tab]
        exact hmemu
      · simp only [hgb, reduceIte]
        rw [getOrderedTabsFrom_append]
        exact List.mem_append_right _ (mem_flatten_mkGroups ctx cfg _ t hmemu)
  · simp only [hps, Bool.false_eq_true, if_neg, not_false_eq_true, reduceIte]
    by_cases hgb : cfg.groupBy = GroupBy.none
    · simp only [hgb, reduceIte]
      rw [getOrderedTabsFrom_map_tab]
      exact hsorted
    · simp only [hgb, reduceIte]
      exact mem_flatten_mkGroups ctx cfg _ t hsorted

theorem mem_mkGroups_inv (ctx : Ctx) (cfg : DocumentTabsConfig) (tabs : List TabItem)
    (g : GroupItem) (h : TreeViewItem.group g ∈ mkGroups ctx cfg tabs) :
    ∃ k, k ∈ tabs.map (groupKeyOf ctx cfg) ∧
      g = ⟨if k = [] then otherName else k,
           sortTabs cfg (tabs.filter (fun t => decide (groupKeyOf ctx cfg t = k))),
           groupState cfg⟩ := by
  rw [mkGroups_eq] at h
  obtain ⟨k, hk, hkeq⟩ := List.mem_map.mp h
  refine ⟨k, (mem_firstDedup _ _).mp ((mem_sortStrings _ _).mp hk), ?_⟩
  cases hkeq
  rfl

theorem splitOnChar_of_not_mem (sep : Char) (l : Str) (h : sep ∉ l) :
    splitOnChar sep l = [l] := by
  induction l with
  | nil => rfl
  | cons c rest ih =>
    have hc : ¬ c = sep := fun e => h (e ▸ List.mem_cons_self c rest)
    have hrest : sep ∉ rest := fun hr => h (List.mem_cons_of_mem c hr)
    simp [splitOnChar, ih hrest, hc]

/-! Claim theorems. -/

/-- C1: for every document set and preference signature with a non-`none`
group-by mode, the root build buckets the (non-pinned) documents by group
key, returns the Group Nodes ordered by lexicographically sorted bucket
name, and each node's members are its bucket sorted by the active sort
order; in particular `\x7bb.ts (opened 2nd), a.ts (opened 1st)\x7d` in folder
`src` groups as `src → [a.ts, b.ts]` under alphabetical sort and as
`src → [b.ts, a.ts]` under recently-opened-first. -/
theorem C1_grouped_root_build (ctx : Ctx) (cfg : DocumentTabsConfig)
    (tabs : List TabItem) (hg : cfg.groupBy ≠ GroupBy.none) :
    (buildRoot ctx cfg tabs =
      if cfg.showPinnedSeparately then
        (if ((sortTabs cfg tabs).filter (fun t => t.isPinned)).isEmpty then []
         else [TreeViewItem.group
                ⟨pinnedGroupName, (sortTabs cfg tabs).filter (fun t => t.isPinned),
                 TreeItemCollapsibleState.expanded⟩]) ++
          groupNodesSpec ctx cfg ((sortTabs cfg tabs).filter (fun t => !t.isPinned))
      else groupNodesSpec ctx cfg (sortTabs cfg tabs))
    ∧ buildRoot exCtx exCfgAlphaFolder [exTabB, exTabA] =
        [TreeViewItem.group
          ⟨("src").data, [exTabA, exTabB], TreeItemCollapsibleState.expanded⟩]
    ∧ buildRoot exCtx exCfgRecentFolder [exTabB, exTabA] =
        [TreeViewItem.group
          ⟨("src").data, [exTabB, exTabA], TreeItemCollapsibleState.expanded⟩] := by
  refine ⟨?_, by decide, by decide⟩
  simp only [buildRoot, ← mkGroups_eq_groupNodesSpec]
  by_cases hps : cfg.showPinnedSeparately <;> simp [hps, hg]

/-- C1 witness at a concrete input. -/
theorem C1_grouped_root_build_witness :
    buildRoot exCtx exCfgAlphaFolder [exTabB, exTabA] =
      if exCfgAlphaFolder.showPinnedSeparately then
        (if ((sortTabs exCfgAlphaFolder [exTabB, exTabA]).filter
              (fun t => t.isPinned)).isEmpty then []
         else [TreeViewItem.group
                ⟨pinnedGroupName,
                 (sortTabs exCfgAlphaFolder [exTabB, exTabA]).filter (fun t => t.isPinned),
                 TreeItemCollapsibleState.expanded⟩]) ++
          groupNodesSpec exCtx exCfgAlphaFolder
            ((sortTabs exCfgAlphaFolder [exTabB, exTabA]).filter (fun t => !t.isPinned))
      else groupNodesSpec exCtx exCfgAlphaFolder (sortTabs exCfgAlphaFolder [exTabB, exTabA]) :=
  (C1_grouped_root_build exCtx exCfgAlphaFolder [exTabB, exTabA] (by decide)).1

/-- C2: with show-pinned-separately enabled and at least one pinned
document, the root sequence starts with exactly one synthetic pinned group
(fixed reserved name, always expanded, members = the pinned documents in
the active sort order), and with group-by `none` the unpinned documents
follow directly as leaves; in particular
`[PinnedGroup\x7bb.ts\x7d, a.ts]` for the worked example. -/
theorem C2_pinned_group_first (ctx : Ctx) (cfg : DocumentTabsConfig)
    (tabs : List TabItem) (hp : cfg.showPinnedSeparately = true)
    (hne : (sortTabs cfg tabs).filter (fun t => t.isPinned) ≠ []) :
    (buildRoot ctx cfg tabs =
      TreeViewItem.group
        ⟨pinnedGroupName, (sortTabs cfg tabs).filter (fun t => t.isPinned),
         TreeItemCollapsibleState.expanded⟩ ::
        (if cfg.groupBy = GroupBy.none
         then ((sortTabs cfg tabs).filter (fun t => !t.isPinned)).map TreeViewItem.tab
         else mkGroups ctx cfg ((sortTabs cfg tabs).filter (fun t => !t.isPinned))))
    ∧ buildRoot exCtx exCfgNonePinned [exTabBPinned, exTabA] =
        [TreeViewItem.group
          ⟨pinnedGroupName, [exTabBPinned], TreeItemCollapsibleState.expanded⟩,
         TreeViewItem.tab exTabA] := by
  refine ⟨?_, by decide⟩
  have hie : ((sortTabs cfg tabs).filter (fun t => t.isPinned)).isEmpty = false := by
    simp [List.isEmpty_iff, hne]
  by_cases hgb : cfg.groupBy = GroupBy.none <;>
    simp [buildRoot, hp, hie, hgb, List.singleton_append]

/-- C2 witness at a concrete input. -/
theorem C2_pinned_group_first_witness :
    buildRoot exCtx exCfgNonePinned [exTabBPinned, exTabA] =
      TreeViewItem.group
        ⟨pinnedGroupName,
         (sortTabs exCfgNonePinned [exTabBPinned, exTabA]).filter (fun t => t.isPinned),
         TreeItemCollapsibleState.expanded⟩ ::
        (if exCfgNonePinned.groupBy = GroupBy.none
         then ((sortTabs exCfgNonePinned [exTabBPinned, exTabA]).filter
            (fun t => !t.isPinned)).map TreeViewItem.tab
         else mkGroups exCtx exCfgNonePinned
            ((sortTabs exCfgNonePinned [exTabBPinned, exTabA]).filter
              (fun t => !t.isPinned))) :=
  (C2_pinned_group_first exCtx exCfgNonePinned [exTabBPinned, exTabA] rfl (by decide)).1

/-- C5 counterexample: a `.csproj` marker file makes `getProjectFolder`
return the empty string, the bucket key is empty, yet the Group Node is
stored with name `"Other"` — the sentinel substitution happens at storage
time, not only at render time as claimed. -/
theorem C5_counterexample :
    groupKeyOf cexCtx exCfgProject cexTab = ([] : Str) ∧
    buildRoot cexCtx exCfgProject [cexTab] =
      [TreeViewItem.group ⟨otherName, [cexTab], TreeItemCollapsibleState.expanded⟩] ∧
    otherName ≠ ([] : Str) :=
  ⟨by decide, by decide, by decide⟩

/-- C5 (amended): a Group Node built from a bucket stores
`bucket key || 'Other'` — the empty bucket key is replaced by the sentinel
already at construction time — and the render-time tree item additionally
substitutes `'Ungrouped'` exactly for an empty stored name. -/
theorem C5_amended_sentinel_at_storage (ctx : Ctx) (cfg : DocumentTabsConfig)
    (tabs : List TabItem) :
    (∀ g : GroupItem, TreeViewItem.group g ∈ mkGroups ctx cfg tabs →
      ∃ k, k ∈ tabs.map (groupKeyOf ctx cfg) ∧
        g.name = (if k = [] then otherName else k))
    ∧ (∀ g : GroupItem,
        groupTreeItemLabel g = if g.name = [] then ungroupedName else g.name) := by
  refine ⟨fun g hg => ?_, fun g => rfl⟩
  obtain ⟨k, hk, hgeq⟩ := mem_mkGroups_inv ctx cfg tabs g hg
  exact ⟨k, hk, by rw [hgeq]⟩

/-- C5 amended-claim witness at the counterexample input. -/
theorem C5_amended_sentinel_at_storage_witness :
    (∃ k, k ∈ ([cexTab].map (groupKeyOf cexCtx exCfgProject)) ∧
      (GroupItem.mk otherName [cexTab] TreeItemCollapsibleState.expanded).name =
        (if k = [] then otherName else k))
    ∧ groupTreeItemLabel ⟨otherName, [cexTab], TreeItemCollapsibleState.expanded⟩ =
        otherName :=
  ⟨(C5_amended_sentinel_at_storage cexCtx exCfgProject [cexTab]).1
      ⟨otherName, [cexTab], TreeItemCollapsibleState.expanded⟩ (by decide),
   by decide⟩

/-- C10 (implicit): every Group Node the root build places in the root
sequence has a non-empty name (the reserved pinned label, or the bucket key
with `""` already replaced by `"Other"`), so the `'Ungrouped'` render-time
fallback of `getTreeItem` is unreachable for builder-produced nodes. -/
theorem C10_group_names_nonempty (ctx : Ctx) (cfg : DocumentTabsConfig)
    (tabs : List TabItem) :
    ∀ g : GroupItem, TreeViewItem.group g ∈ buildRoot ctx cfg tabs →
      g.name ≠ ([] : Str) ∧ groupTreeItemLabel g = g.name := by
  intro g hg
  have hname : g.name ≠ ([] : Str) := by
    have hmk : ∀ tabs', TreeViewItem.group g ∈ mkGroups ctx cfg tabs' →
        g.name ≠ ([] : Str) := by
      intro tabs' hmem
      obtain ⟨k, _, hgeq⟩ := mem_mkGroups_inv ctx cfg tabs' g hmem
      rw [hgeq]
      show (if k = [] then otherName else k) ≠ ([] : Str)
      by_cases hk : k = []
      · rw [if_pos hk]
        decide
      · rw [if_neg hk]
        exact hk
    simp only [buildRoot] at hg
    by_cases hps : cfg.showPinnedSeparately <;>
      by_cases hgb : cfg.groupBy = GroupBy.none <;>
      simp only [hps, hgb, Bool.false_eq_true, if_pos, if_neg, not_false_eq_true,
        reduceIte] at hg
    · rcases List.mem_append.mp hg with h | h
      · split at h
        · cases h
        · rw [List.mem_singleton] at h
          cases h
          show pinnedGroupName ≠ ([] : Str)
          decide
      · obtain ⟨t, _, ht⟩ := List.mem_map.mp h
        cases ht
    · rcases List.mem_append.mp hg with h | h
      · split at h
        · cases h
        · rw [List.mem_singleton] at h
          cases h
          show pinnedGroupName ≠ ([] : Str)
          decide
      · exact hmk _ h
    · obtain ⟨t, _, ht⟩ := List.mem_map.mp hg
      cases ht
    · exact hmk _ hg
  exact ⟨hname, by simp [groupTreeItemLabel, hname]⟩

/-- C10 witness at a concrete input. -/
theorem C10_group_names_nonempty_witness :
    (GroupItem.mk (("src").data) [exTabA, exTabB] TreeItemCollapsibleState.expanded).name ≠
      ([] : Str) ∧
    groupTreeItemLabel ⟨("src").data, [exTabA, exTabB], TreeItemCollapsibleState.expanded⟩ =
      ("src").data :=
  C10_group_names_nonempty exCtx exCfgAlphaFolder [exTabB, exTabA]
    ⟨("src").data, [exTabA, exTabB], TreeItemCollapsibleState.expanded⟩ (by decide)

/-- C6: the path classifiers satisfy the literal edge cases, and every
dotfile name `'.' ++ rest` with no further dot yields `"." ++ rest` rather
than the `"No Extension"` sentinel. -/
theorem C6_classifier_edge_cases :
    getFileExtension (("Makefile").data) = noExtension
    ∧ getFileExtension (("app.test.spec.ts").data) = (".ts").data
    ∧ getFileExtension ((".eslintrc.json").data) = (".json").data
    ∧ getParentFolder (("/file.ts").data) = rootSentinel
    ∧ getParentFolder (("/workspace/src/index.ts").data) = ("src").data
    ∧ (∀ rest : Str, '.' ∉ rest → '/' ∉ rest →
        getFileExtension ('.' :: rest) = '.' :: rest) := by
  refine ⟨by decide, by decide, by decide, by decide, by decide, ?_⟩
  intro rest hdot hslash
  have hsl : '/' ∉ ('.' :: rest) := by
    intro h
    rcases List.mem_cons.mp h with h | h
    · exact absurd h (by decide)
    · exact hslash h
  have hname : getFileName ('.' :: rest) = '.' :: rest := by
    simp [getFileName, splitOnChar_of_not_mem '/' _ hsl]
  have hsplit : splitOnChar '.' ('.' :: rest) = [[], rest] := by
    simp [splitOnChar, splitOnChar_of_not_mem '.' rest hdot]
  simp [getFileExtension, hname, hsplit]

/-- C6 witness at the dotfile `.gitignore`. -/
theorem C6_classifier_edge_cases_witness :
    getFileExtension ('.' :: ("gitignore").data) = '.' :: ("gitignore").data :=
  C6_classifier_edge_cases.2.2.2.2.2 (("gitignore").data) (by decide) (by decide)

theorem ancestorChain_cons (dir : List Str) (rl : Nat) (h1 : 1 ≤ rl)
    (h2 : rl ≤ dir.length) :
    ancestorChain dir rl = dir :: ancestorChain dir.dropLast rl := by
  unfold ancestorChain
  have hlen : dir.length + 1 - rl = (dir.dropLast.length + 1 - rl) + 1 := by
    rw [List.length_dropLast]
    omega
  rw [hlen, List.range_succ_eq_map, List.map_cons, List.map_map]
  congr 1
  · rw [Nat.sub_zero, List.take_length]
  · refine List.map_congr_left (fun i _ => ?_)
    simp only [Function.comp_apply]
    have e1 : dir.length - Nat.succ i = dir.length - 1 - i := by omega
    rw [e1, List.length_dropLast, List.dropLast_eq_take, List.take_take]
    have e2 : min (dir.length - 1 - i) (dir.length - 1) = dir.length - 1 - i := by omega
    rw [e2]

theorem walkUpAux_eq_chain (ctx : Ctx) (root : List Str) (hroot : 2 ≤ root.length) :
    ∀ fuel dir, dir.length < fuel →
      walkUpAux ctx root fuel dir =
        (ancestorChain dir root.length).findSome? (markerNameIn ctx) := by
  intro fuel
  induction fuel with
  | zero => exact fun dir h => absurd h (Nat.not_lt_zero _)
  | succ fuel ih =>
    intro dir hlt
    rw [walkUpAux]
    by_cases h1 : dir.length < root.length
    · rw [if_pos h1]
      have h0 : dir.length + 1 - root.length = 0 := by omega
      simp [ancestorChain, h0]
    · rw [if_neg h1]
      have h2 : root.length ≤ dir.length := Nat.le_of_not_lt h1
      rw [ancestorChain_cons dir root.length (by omega) h2]
      cases hm : markerNameIn ctx dir with
      | some n => simp [List.findSome?_cons, hm]
      | none =>
        have hgt : ¬ dir.length ≤ 1 := by omega
        rw [if_neg hgt]
        simp only [List.findSome?_cons, hm]
        exact ih dir.dropLast (by rw [List.length_dropLast]; omega)

theorem walkUp_eq_chain (ctx : Ctx) (root : List Str) (hroot : 2 ≤ root.length)
    (dir : List Str) :
    walkUp ctx dir root = (ancestorChain dir root.length).findSome? (markerNameIn ctx) :=
  walkUpAux_eq_chain ctx root hroot _ _ (Nat.lt_succ_self _)

theorem walkUpAux_congr (ctx₁ ctx₂ : Ctx)
    (h : ∀ d, (ctx₁.readDir d).getD [] = (ctx₂.readDir d).getD []) :
    ∀ fuel dir root, walkUpAux ctx₁ root fuel dir = walkUpAux ctx₂ root fuel dir := by
  intro fuel
  induction fuel with
  | zero => intro dir root; rfl
  | succ fuel ih =>
    intro dir root
    rw [walkUpAux, walkUpAux]
    have hm : markerNameIn ctx₁ dir = markerNameIn ctx₂ dir := by
      unfold markerNameIn
      rw [h dir]
    by_cases h1 : dir.length < root.length
    · rw [if_pos h1, if_pos h1]
    · rw [if_neg h1, if_neg h1, hm]
      cases markerNameIn ctx₂ dir with
      | some n => rfl
      | none =>
        by_cases h2 : dir.length ≤ 1
        · rw [if_pos h2, if_pos h2]
        · rw [if_neg h2, if_neg h2]
          exact ih _ _

/-- C3: the project-root classifier agrees with the specification's
walk-then-fallback priority order (for well-formed inputs: workspace roots
of at least two path segments, no empty interior path segments), and an
unreadable or vanished directory behaves exactly like an empty one — the
walk continues upward without failing. -/
theorem C3_project_root_classifier (ctx : Ctx) (uri : Str)
    (hroot : ∀ ws ∈ ctx.workspaceFolders, 2 ≤ ws.root.length)
    (hseg : ∀ p ∈ (splitOnChar '/' uri).drop 1, p ≠ ([] : Str)) :
    getProjectFolder ctx uri = projectFolderSpec ctx uri
    ∧ (∀ ctx₁ ctx₂ : Ctx, ctx₁.workspaceFolders = ctx₂.workspaceFolders →
        (∀ d, (ctx₁.readDir d).getD [] = (ctx₂.readDir d).getD []) →
        getProjectFolder ctx₁ uri = getProjectFolder ctx₂ uri) := by
  constructor
  · cases hws : getWorkspaceFolder ctx uri with
    | none => simp [getProjectFolder, projectFolderSpec, hws]
    | some ws =>
      have hwsmem : ws ∈ ctx.workspaceFolders :=
        List.mem_of_find?_eq_some hws
      have hr2 : 2 ≤ ws.root.length := hroot ws hwsmem
      have hwalk : walkUp ctx ((splitOnChar '/' uri).dropLast) ws.root =
          (ancestorChain ((splitOnChar '/' uri).dropLast) ws.root.length).findSome?
            (markerNameIn ctx) :=
        walkUp_eq_chain ctx ws.root hr2 _
      have hfind : (((splitOnChar '/' uri).drop ws.root.length).dropLast).find?
            (fun f => !decide (f.map Char.toLower ∈ rootFolders) && decide (f.length > 0)) =
          (((splitOnChar '/' uri).drop ws.root.length).dropLast).find?
            (fun f => !decide (f.map Char.toLower ∈ rootFolders)) := by
        refine find?_congrOn _ (fun f hf => ?_)
        have hf1 : f ∈ (splitOnChar '/' uri).drop ws.root.length :=
          List.dropLast_subset _ hf
        have hf2 : f ∈ (splitOnChar '/' uri).drop 1 := by
          have e : (1 : Nat) + (ws.root.length - 1) = ws.root.length := by omega
          rw [← e, ← List.drop_drop] at hf1
          exact List.mem_of_mem_drop hf1
        have hfne : f ≠ ([] : Str) := hseg f hf2
        have : decide (f.length > 0) = true :=
          decide_eq_true (List.length_pos.mpr hfne)
        rw [this, Bool.and_true]
      simp only [getProjectFolder, projectFolderSpec, hws, hwalk, hfind]
  · intro ctx₁ ctx₂ hw hr
    have hwseq : getWorkspaceFolder ctx₁ uri = getWorkspaceFolder ctx₂ uri := by
      unfold getWorkspaceFolder
      rw [hw]
    cases hws : getWorkspaceFolder ctx₂ uri with
    | none => simp [getProjectFolder, hwseq, hws]
    | some ws =>
      have hwalk : walkUp ctx₁ ((splitOnChar '/' uri).dropLast) ws.root =
          walkUp ctx₂ ((splitOnChar '/' uri).dropLast) ws.root := by
        unfold walkUp
        exact walkUpAux_congr ctx₁ ctx₂ hr _ _ _
      simp only [getProjectFolder, hwseq, hws, hwalk]

/-- C3 witness: `/ws/a/b` is unreadable, the walk continues to `/ws/a` and
finds `x.csproj`. -/
theorem C3_project_root_classifier_witness :
    getProjectFolder witCtx witUri = projectFolderSpec witCtx witUri ∧
    getProjectFolder witCtx witUri = [('x')] :=
  ⟨(C3_project_root_classifier witCtx witUri (by decide) (by decide)).1, by decide⟩

theorem lookupSeq_append_self (l : List (Str × Nat)) (k : Str) (v : Nat)
    (h : lookupSeq l k = Option.none) : lookupSeq (l ++ [(k, v)]) k = some v := by
  unfold lookupSeq at *
  rw [List.find?_append]
  have hf : l.find? (fun p => decide (p.1 = k)) = Option.none := by
    cases hf : l.find? (fun p => decide (p.1 = k)) with
    | some p => rw [hf] at h; cases h
    | none => rfl
  simp [hf, List.find?_cons]

theorem lookupSeq_append_other (l : List (Str × Nat)) (k k' : Str) (v : Nat)
    (h : k' ≠ k) : lookupSeq (l ++ [(k, v)]) k' = lookupSeq l k' := by
  unfold lookupSeq
  rw [List.find?_append]
  cases hf : l.find? (fun p => decide (p.1 = k')) with
  | some p => simp [hf]
  | none => simp [hf, List.find?_cons, Ne.symm h]

theorem lookupSeq_filter_self (l : List (Str × Nat)) (k : Str) :
    lookupSeq (l.filter (fun p => !decide (p.1 = k))) k = Option.none := by
  unfold lookupSeq
  rw [find?_filter_not_self]
  rfl

/-- C4: ledger sequence monotonicity — opening `A` then `B` gives
`sequenceOf B > sequenceOf A`; closing `A` resets it to the untracked
default 0; re-opening `A` yields a sequence strictly above every sequence
the ledger ever issued. -/
theorem C4_ledger_monotonicity (s s1 s2 s3 s4 : ProviderState) (A B : Str)
    (hAB : A ≠ B)
    (hA : lookupSeq s.tabOpenOrder A = Option.none)
    (hB : lookupSeq s.tabOpenOrder B = Option.none)
    (hinv : ∀ p ∈ s.tabOpenOrder, p.2 < s.orderCounter)
    (h1 : s1 = trackNewTabs [⟨some A, false, false⟩] s)
    (h2 : s2 = trackNewTabs [⟨some B, false, false⟩] s1)
    (h3 : s3 = removeClosedTabs [⟨some A, false, false⟩] s2)
    (h4 : s4 = trackNewTabs [⟨some A, false, false⟩] s3) :
    sequenceOf s2 B > sequenceOf s2 A
    ∧ sequenceOf s3 A = 0
    ∧ sequenceOf s4 A > sequenceOf s2 A
    ∧ sequenceOf s4 A > sequenceOf s2 B
    ∧ (∀ p ∈ s.tabOpenOrder, sequenceOf s4 A > p.2) := by
  subst h1 h2 h3 h4
  have e1o : (trackNewTabs [⟨some A, false, false⟩] s).tabOpenOrder =
      s.tabOpenOrder ++ [(A, s.orderCounter)] := by
    simp [trackNewTabs, trackOne, invalidateCache, hA]
  have e1c : (trackNewTabs [⟨some A, false, false⟩] s).orderCounter =
      s.orderCounter + 1 := by
    simp [trackNewTabs, trackOne, invalidateCache, hA]
  have hB1 : lookupSeq (trackNewTabs [⟨some A, false, false⟩] s).tabOpenOrder B =
      Option.none := by
    rw [e1o, lookupSeq_append_other _ _ _ _ (Ne.symm hAB)]
    exact hB
  set s1 := trackNewTabs [⟨some A, false, false⟩] s with hs1
  have e2o : (trackNewTabs [⟨some B, false, false⟩] s1).tabOpenOrder =
      s1.tabOpenOrder ++ [(B, s1.orderCounter)] := by
    simp [trackNewTabs, trackOne, invalidateCache, hB1]
  have e2c : (trackNewTabs [⟨some B, false, false⟩] s1).orderCounter =
      s1.orderCounter + 1 := by
    simp [trackNewTabs, trackOne, invalidateCache, hB1]
  set s2 := trackNewTabs [⟨some B, false, false⟩] s1 with hs2
  have hseq2A : sequenceOf s2 A = s.orderCounter := by
    unfold sequenceOf
    rw [e2o, lookupSeq_append_other _ _ _ _ hAB, e1o, lookupSeq_append_self _ _ _ hA]
    rfl
  have hseq2B : sequenceOf s2 B = s.orderCounter + 1 := by
    unfold sequenceOf
    rw [e2o, lookupSeq_append_self _ _ _ hB1, e1c]
    rfl
  have e3o : (removeClosedTabs [⟨some A, false, false⟩] s2).tabOpenOrder =
      s2.tabOpenOrder.filter (fun p => !decide (p.1 = A)) := by
    simp [removeClosedTabs, removeOne, invalidateCache]
  have e3c : (removeClosedTabs [⟨some A, false, false⟩] s2).orderCounter =
      s2.orderCounter := by
    simp [removeClosedTabs, removeOne, invalidateCache]
  set s3 := removeClosedTabs [⟨some A, false, false⟩] s2 with hs3
  have hA3 : lookupSeq s3.tabOpenOrder A = Option.none := by
    rw [e3o]
    exact lookupSeq_filter_self _ _
  have hseq3A : sequenceOf s3 A = 0 := by
    unfold sequenceOf
    rw [hA3]
    rfl
  have e4o : (trackNewTabs [⟨some A, false, false⟩] s3).tabOpenOrder =
      s3.tabOpenOrder ++ [(A, s3.orderCounter)] := by
    simp [trackNewTabs, trackOne, invalidateCache, hA3]
  have hseq4A : sequenceOf (trackNewTabs [⟨some A, false, false⟩] s3) A =
      s.orderCounter + 2 := by
    unfold sequenceOf
    rw [e4o, lookupSeq_append_self _ _ _ hA3, e3c, e2c, e1c]
    rfl
  refine ⟨by omega, hseq3A, by omega, by omega, fun p hp => ?_⟩
  have := hinv p hp
  omega

/-- C4 witness on a fresh ledger with identities `a` and `b`. -/
theorem C4_ledger_monotonicity_witness :
    sequenceOf c4s2 (("b").data) > sequenceOf c4s2 (("a").data)
    ∧ sequenceOf c4s3 (("a").data) = 0
    ∧ sequenceOf c4s4 (("a").data) > sequenceOf c4s2 (("a").data)
    ∧ sequenceOf c4s4 (("a").data) > sequenceOf c4s2 (("b").data)
    ∧ (∀ p ∈ emptyState.tabOpenOrder, sequenceOf c4s4 (("a").data) > p.2) :=
  C4_ledger_monotonicity emptyState c4s1 c4s2 c4s3 c4s4 (("a").data) (("b").data)
    (by decide) rfl rfl (by intro p hp; cases hp) rfl rfl rfl rfl

theorem lookupColor_setColorEntry_self (m : ManualColors) (k : Str) (c : TabColorName) :
    lookupColor (setColorEntry k c m) k = some c := by
  induction m with
  | nil => simp [setColorEntry, lookupColor, List.find?_cons]
  | cons p rest ih =>
    by_cases hp : p.1 = k
    · simp [setColorEntry, hp, lookupColor, List.find?_cons]
    · have hstep : setColorEntry k c (p :: rest) = p :: setColorEntry k c rest := by
        simp [setColorEntry, hp]
      rw [hstep]
      unfold lookupColor at ih ⊢
      rw [List.find?_cons, (by simp [hp] : (decide (p.1 = k)) = false)]
      exact ih

theorem lookupColor_deleteColorEntry_self (m : ManualColors) (k : Str) :
    lookupColor (deleteColorEntry m k) k = Option.none := by
  unfold lookupColor deleteColorEntry
  rw [find?_filter_not_self]
  rfl

theorem mem_setColorEntry (k : Str) (c : TabColorName) (m : ManualColors)
    (p : Str × TabColorName) (hp : p ∈ setColorEntry k c m) : p = (k, c) ∨ p ∈ m := by
  induction m with
  | nil =>
    simp [setColorEntry] at hp
    exact Or.inl hp
  | cons q rest ih =>
    by_cases hq : q.1 = k
    · simp only [setColorEntry, if_pos hq] at hp
      rcases List.mem_cons.mp hp with h | h
      · exact Or.inl h
      · exact Or.inr (List.mem_cons_of_mem _ h)
    · simp only [setColorEntry, if_neg hq] at hp
      rcases List.mem_cons.mp hp with h | h
      · exact Or.inr (h ▸ List.mem_cons_self _ _)
      · rcases ih h with h' | h'
        · exact Or.inl h'
        · exact Or.inr (List.mem_cons_of_mem _ h')

/-- C7: a stored manual color other than `'none'` wins over every color-by
mode; `set(id, 'none')` deletes the stored entry (the persisted map never
holds the value `'none'`), after which the effective color is the
mode-computed one. -/
theorem C7_manual_color_override (ctx : Ctx) (cfg : DocumentTabsConfig)
    (m : ManualColors) (t : TabItem) (c : TabColorName)
    (hc : c ≠ TabColorName.none) :
    getEffectiveTabColor ctx (setManualTabColor m t.uri c) t cfg = c
    ∧ lookupColor (setManualTabColor m t.uri TabColorName.none) t.uri = Option.none
    ∧ getEffectiveTabColor ctx (setManualTabColor m t.uri TabColorName.none) t cfg =
        (match cfg.colorBy with
         | ColorBy.none => TabColorName.none
         | ColorBy.project => autoColor (getProjectFolder ctx t.uri)
         | ColorBy.extension => autoColor (getFileExtension t.uri))
    ∧ (∀ (m' : ManualColors) (k : Str) (c' : TabColorName),
        (∀ p ∈ m', p.2 ≠ TabColorName.none) →
        ∀ p ∈ setManualTabColor m' k c', p.2 ≠ TabColorName.none) := by
  have hdel : lookupColor (setManualTabColor m t.uri TabColorName.none) t.uri =
      Option.none := by
    simp [setManualTabColor, lookupColor_deleteColorEntry_self]
  refine ⟨?_, hdel, ?_, ?_⟩
  · simp [getEffectiveTabColor, setManualTabColor, hc, lookupColor_setColorEntry_self]
  · rw [getEffectiveTabColor, hdel]
    cases cfg.colorBy <;> simp
  · intro m' k c' hm' p hp
    by_cases hc' : c' = TabColorName.none
    · rw [setManualTabColor, if_pos hc'] at hp
      exact hm' p (List.mem_of_mem_filter hp)
    · rw [setManualTabColor, if_neg hc'] at hp
      rcases mem_setColorEntry k c' m' p hp with h | h
      · rw [h]
        exact hc'
      · exact hm' p h

/-- C7 witness at a concrete document and the `gold` override. -/
theorem C7_manual_color_override_witness :
    getEffectiveTabColor exCtx (setManualTabColor [] exTabA.uri TabColorName.gold)
        exTabA exCfgAlphaFolder = TabColorName.gold
    ∧ lookupColor (setManualTabColor [] exTabA.uri TabColorName.none) exTabA.uri =
        Option.none :=
  ⟨(C7_manual_color_override exCtx exCfgAlphaFolder [] exTabA TabColorName.gold
      (by decide)).1,
   (C7_manual_color_override exCtx exCfgAlphaFolder [] exTabA TabColorName.gold
      (by decide)).2.1⟩

/-- C8: the automatic color is the fixed 16-entry palette indexed by the
absolute value of the djb2 hash `hash = hash*33 XOR charCode` (seed 5381,
left-to-right, 32-bit) modulo the palette length; it is deterministic, and
two keys share a color only when their hashes collide modulo the palette
length. -/
theorem C8_auto_color_djb2 :
    (∀ key : Str, autoColor key =
      autoColorPalette.getD
        ((toSigned32 (specDjb2 key)).natAbs % autoColorPalette.length)
        TabColorName.none)
    ∧ (∀ k₁ k₂ : Str, k₁ = k₂ → autoColor k₁ = autoColor k₂)
    ∧ (∀ k₁ k₂ : Str, autoColor k₁ = autoColor k₂ →
        absHash k₁ % autoColorPalette.length = absHash k₂ % autoColorPalette.length) := by
  have hstep : hashStep = fun h c => Nat.xor (h * 33 % M32) c := by
    funext h c
    unfold hashStep
    rw [Nat.mod_add_mod]
    have e : h * 32 + h = h * 33 := by ring
    rw [e]
  have hh : ∀ s, hashString s = specDjb2 s := by
    intro s
    unfold hashString specDjb2
    rw [hstep]
  refine ⟨fun key => ?_, fun k₁ k₂ h => h ▸ rfl, fun k₁ k₂ h => ?_⟩
  · unfold autoColor absHash
    rw [hh]
  · have hpal : ∀ i, i < 16 → ∀ j, j < 16 →
        autoColorPalette.getD i TabColorName.none =
          autoColorPalette.getD j TabColorName.none → i = j := by decide
    have h16 : autoColorPalette.length = 16 := rfl
    have hlt1 : absHash k₁ % autoColorPalette.length < 16 := by
      rw [h16]
      exact Nat.mod_lt _ (by decide)
    have hlt2 : absHash k₂ % autoColorPalette.length < 16 := by
      rw [h16]
      exact Nat.mod_lt _ (by decide)
    exact hpal _ hlt1 _ hlt2 h

/-- C8 witness: the specification formula evaluated at `"MyApp"`, and the
collision property discharged at a concrete pair of equal keys. -/
theorem C8_auto_color_djb2_witness :
    autoColor (("MyApp").data) =
      autoColorPalette.getD
        ((toSigned32 (specDjb2 (("MyApp").data))).natAbs % autoColorPalette.length)
        TabColorName.none
    ∧ absHash (("a").data) % autoColorPalette.length =
        absHash (("a").data) % autoColorPalette.length :=
  ⟨C8_auto_color_djb2.1 (("MyApp").data),
   C8_auto_color_djb2.2.2 (("a").data) (("a").data) rfl⟩

theorem computeAllTabs_cons (ctx : Ctx) (cfg : DocumentTabsConfig) (s : ProviderState)
    (r : RawTab) (rest : List RawTab) :
    computeAllTabs ctx cfg s (r :: rest) =
      (match r.uri with
       | some u =>
         [({ uri := u, label := getFileName u, isPinned := r.isPinned,
             isDirty := r.isDirty, openedAt := sequenceOf s u,
             projectFolder :=
               if cfg.groupBy = GroupBy.project || cfg.colorBy = ColorBy.project
               then some (getProjectFolder ctx u) else Option.none } : TabItem)]
       | Option.none => []) ++ computeAllTabs ctx cfg s rest := by
  cases hr : r.uri <;> simp [computeAllTabs, hr]

theorem mem_computeAllTabs (ctx : Ctx) (cfg : DocumentTabsConfig) (s : ProviderState)
    (live : List RawTab) (u : Str) (h : some u ∈ live.map RawTab.uri) :
    u ∈ (computeAllTabs ctx cfg s live).map TabItem.uri := by
  induction live with
  | nil => cases h
  | cons r rest ih =>
    rw [List.map_cons] at h
    rw [computeAllTabs_cons, List.map_append]
    rcases List.mem_cons.mp h with h | h
    · rw [← h]
      simp
    · exact List.mem_append_right _ (ih h)

/-- C9: after a successful root build, `trackNewTabs` with a non-empty
batch invalidates the caches and the next root build reflects every live
document; `trackNewTabs []` performs no invalidation at all and the next
root call under the same signature returns the very same cached value. -/
theorem C9_cache_invalidation (ctx : Ctx) (cfg : DocumentTabsConfig)
    (s : ProviderState) (live newTabs : List RawTab) (r : List TreeViewItem)
    (hc : s.cachedRootChildren = some r)
    (hsig : s.cachedRootChildrenSignature = some (signatureOf cfg)) :
    (trackNewTabs [] s = s
     ∧ (getChildrenRoot ctx cfg (trackNewTabs [] s) live).1 = r)
    ∧ (newTabs ≠ [] →
        (trackNewTabs newTabs s).cachedRootChildren = Option.none
        ∧ (trackNewTabs newTabs s).cachedAllTabs = Option.none
        ∧ ∀ u : Str, some u ∈ live.map RawTab.uri →
            u ∈ (getOrderedTabsFrom
                ((getChildrenRoot ctx cfg (trackNewTabs newTabs s) live).1)).map
              TabItem.uri) := by
  constructor
  · refine ⟨rfl, ?_⟩
    show (getChildrenRoot ctx cfg s live).1 = r
    simp [getChildrenRoot, hc, hsig]
  · intro hne
    have hie : newTabs.isEmpty = false := by
      simp [List.isEmpty_iff, hne]
    have hinval : trackNewTabs newTabs s =
        invalidateCache (newTabs.foldl trackOne s) := by
      unfold trackNewTabs
      rw [hie]
      rfl
    refine ⟨by rw [hinval]; rfl, by rw [hinval]; rfl, fun u hu => ?_⟩
    rw [hinval]
    have hfst : (getChildrenRoot ctx cfg (invalidateCache (newTabs.foldl trackOne s))
        live).1 =
        buildRoot ctx cfg
          (computeAllTabs ctx cfg (invalidateCache (newTabs.foldl trackOne s)) live) := by
      rfl
    rw [hfst]
    obtain ⟨t, ht, htu⟩ := List.mem_map.mp (mem_computeAllTabs ctx cfg
      (invalidateCache (newTabs.foldl trackOne s)) live u hu)
    exact List.mem_map.mpr ⟨t, mem_flatten_buildRoot _ _ _ _ ht, htu⟩

/-- C9 witness on a warm-cached provider state and one new live tab. -/
theorem C9_cache_invalidation_witness :
    (trackNewTabs [] witCachedState = witCachedState
     ∧ (getChildrenRoot exCtx exCfgAlphaFolder (trackNewTabs [] witCachedState)
          [witRawTab]).1 = [TreeViewItem.tab exTabA])
    ∧ (trackNewTabs [witRawTab] witCachedState).cachedRootChildren = Option.none
    ∧ (("/workspace/src/n.ts").data) ∈ (getOrderedTabsFrom
        ((getChildrenRoot exCtx exCfgAlphaFolder
          (trackNewTabs [witRawTab] witCachedState) [witRawTab]).1)).map TabItem.uri :=
  ⟨(C9_cache_invalidation exCtx exCfgAlphaFolder witCachedState [witRawTab] [witRawTab]
      [TreeViewItem.tab exTabA] rfl rfl).1,
   ((C9_cache_invalidation exCtx exCfgAlphaFolder witCachedState [witRawTab] [witRawTab]
      [TreeViewItem.tab exTabA] rfl rfl).2 (by decide)).1,
   ((C9_cache_invalidation exCtx exCfgAlphaFolder witCachedState [witRawTab] [witRawTab]
      [TreeViewItem.tab exTabA] rfl rfl).2 (by decide)).2.2
     (("/workspace/src/n.ts").data) (by decide)⟩

end DocumentTabs
